import Mathlib

/-!
# Detection logic of the PHP web buildpack

A shallow embedding of `cmd/detect/main.go` (`pickWebDir`, `searchForWebApp`,
`searchForScript`, `runDetect`) together with the parts of the Go standard
library and of the buildpack libraries the detector calls.

* The filesystem below a path is a finite tree of `Node`s recording what
  `os.Lstat` and the directory listing report for every entry.
* `filepath.Walk` is the standard library's traversal, written over that tree and
  generic in the visiting function and its state.
* `php.LoadBuildpackYAML`, `filepath.Join` and `filepath.Glob` are fields of a
  `Host` value: the detector only consumes their results.
* The constants `php.Dependency`, `phpweb.WebDependency`, `phpweb.ScriptDependency`
  and the web-server names are declared outside `main.go`; they are the fields of
  a `Constants` value.
-/

set_option autoImplicit false

namespace PhpWeb

/-! ## Errors, file information, filesystem tree -/

/-- Go `error` values. `SkipDir` is `filepath.SkipDir`, `ErrBadPattern` is
`filepath.ErrBadPattern`; any other error is `other` with its message.
A nil error is `none : Option Error`. -/
inductive Error
  | SkipDir
  | ErrBadPattern
  | other (msg : String)
  deriving DecidableEq, Repr

/-- The type bits of `os.FileMode` that the detector can tell apart. -/
inductive FileMode
  | regular
  | dir
  | symlink
  | irregular
  deriving DecidableEq, Repr

/-- The part of `os.FileInfo` the detector reads: `Name()` and the file type. -/
structure FileInfo where
  Name : String
  Mode : FileMode
  deriving DecidableEq, Repr

/-- Go `info.IsDir()`. -/
def FileInfo.IsDir (info : FileInfo) : Bool :=
  info.Mode == FileMode.dir

/-- Type of a directory entry that is not a directory. -/
inductive EntryKind
  | regular
  | symlink
  | irregular
  deriving DecidableEq, Repr

/-- Go file mode of a non-directory entry. -/
def EntryKind.toMode : EntryKind → FileMode
  | .regular => FileMode.regular
  | .symlink => FileMode.symlink
  | .irregular => FileMode.irregular

/-- What `os.Lstat` and the directory listing report for a path and everything
below it.

* `entry name kind`: `Lstat` succeeds and reports a non-directory.
* `dir name children`: `Lstat` succeeds, reports a directory, and reading the
  directory succeeds with `children` (in the order the names are returned).
* `lockedDir name err`: `Lstat` succeeds and reports a directory, but reading the
  directory fails with `err`.
* `missing name err`: `Lstat` of the path fails with `err`. -/
inductive Node
  | entry (name : String) (kind : EntryKind)
  | dir (name : String) (children : List Node)
  | lockedDir (name : String) (err : Error)
  | missing (name : String) (err : Error)
  deriving Repr

/-- Base name of the path a node stands for. -/
def Node.name : Node → String
  | .entry n _ => n
  | .dir n _ => n
  | .lockedDir n _ => n
  | .missing n _ => n

/-- Go `os.Lstat` on the path a node stands for. -/
def Node.lstat : Node → Except Error FileInfo
  | .entry n k => .ok ⟨n, k.toMode⟩
  | .dir n _ => .ok ⟨n, FileMode.dir⟩
  | .lockedDir n _ => .ok ⟨n, FileMode.dir⟩
  | .missing _ e => .error e

/-! ## `path/filepath.Walk` -/

/-- The `(info, err)` pair `filepath.Walk` hands to a `WalkFunc`: either a file
information with a nil error, or a non-nil error together with the file
information when `Lstat` had succeeded (nil otherwise). -/
inductive Visit
  | ok (info : FileInfo)
  | failed (info : Option FileInfo) (err : Error)
  deriving DecidableEq, Repr

/-- Go `filepath.WalkFunc`, with the variables the closure captures threaded as
a state of type `σ`. The returned `Option Error` is the Go `error`. -/
abbrev WalkFunc (σ : Type) := String → Visit → σ → Option Error × σ

mutual
/-- Go `filepath.walk` (Go 1.10 and later): visit `path`, then its children. It
is only called on a path whose `Lstat` succeeded; the `missing` case is kept
total by making the call the callers make for it. -/
def filepath.walk {σ : Type} (Join : List String → String) (walkFn : WalkFunc σ)
    (path : String) : Node → σ → Option Error × σ
  | .entry n k, s => walkFn path (.ok ⟨n, k.toMode⟩) s
  | .lockedDir n e, s => walkFn path (.failed (some ⟨n, FileMode.dir⟩) e) s
  | .missing _ e, s => walkFn path (.failed none e) s
  | .dir n children, s =>
    match walkFn path (.ok ⟨n, FileMode.dir⟩) s with
    | (some err1, s1) => (some err1, s1)
    | (none, s1) => filepath.walkNames Join walkFn path children s1
/-- The `for _, name := range names` loop of Go `filepath.walk`. -/
def filepath.walkNames {σ : Type} (Join : List String → String) (walkFn : WalkFunc σ)
    (path : String) : List Node → σ → Option Error × σ
  | [], s => (none, s)
  | c :: rest, s =>
    match c.lstat with
    | .error err =>
      match walkFn (Join [path, c.name]) (.failed none err) s with
      | (some err, s1) =>
        if err ≠ Error.SkipDir then (some err, s1)
        else filepath.walkNames Join walkFn path rest s1
      | (none, s1) => filepath.walkNames Join walkFn path rest s1
    | .ok fileInfo =>
      match filepath.walk Join walkFn (Join [path, c.name]) c s with
      | (some err, s1) =>
        if !fileInfo.IsDir || err ≠ Error.SkipDir then (some err, s1)
        else filepath.walkNames Join walkFn path rest s1
      | (none, s1) => filepath.walkNames Join walkFn path rest s1
end


/-- Go `filepath.Walk`. -/
def filepath.Walk {σ : Type} (Join : List String → String) (root : String) (tree : Node)
    (walkFn : WalkFunc σ) (s : σ) : Option Error × σ :=
  let r := match tree.lstat with
    | .error err => walkFn root (.failed none err) s
    | .ok _ => filepath.walk Join walkFn root tree s
  if r.1 = some Error.SkipDir then (none, r.2) else r

/-! ## Buildpack data -/

/-- Go `strings.HasSuffix`. -/
def strings.HasSuffix (s suffix : String) : Bool :=
  suffix.toList.isSuffixOf s.toList

/-- The `php` section of `buildpack.yml` (`php.Config`), with the fields this
repository reads. An unset key is the empty string. -/
structure Config where
  WebDirectory : String
  WebServer : String
  Script : String
  deriving DecidableEq, Repr

/-- Go `php.BuildpackYAML`. -/
structure BuildpackYAML where
  Config : Config
  deriving DecidableEq, Repr

/-- Go `buildplan.Dependency`; the metadata map holds boolean flags. -/
structure Dependency where
  Metadata : List (String × Bool)
  deriving DecidableEq, Repr

/-- Go `buildplan.BuildPlan`, a map from dependency name to dependency, kept as
the key/value pairs of the map literal (Go rejects a literal that repeats a
constant key). -/
abbrev BuildPlan := List (String × Dependency)

/-- The names of the entries of a build plan. -/
def BuildPlan.keys (plan : BuildPlan) : List String :=
  plan.map Prod.fst

/-- String constants declared outside `cmd/detect/main.go`: `php.Dependency`,
`phpweb.WebDependency`, `phpweb.ScriptDependency`, and the web-server names
`phpweb.PhpWebServer`, `phpweb.ApacheHttpd`, `phpweb.Nginx`. -/
structure Constants where
  Dependency : String
  WebDependency : String
  ScriptDependency : String
  PhpWebServer : String
  ApacheHttpd : String
  Nginx : String
  deriving DecidableEq, Repr

/-- The three plan entry names are pairwise different. -/
def Constants.PlanNamesDistinct (c : Constants) : Prop :=
  c.Dependency ≠ c.WebDependency ∧ c.Dependency ≠ c.ScriptDependency ∧
    c.WebDependency ≠ c.ScriptDependency

instance (c : Constants) : Decidable c.PlanNamesDistinct := by
  unfold Constants.PlanNamesDistinct
  infer_instance

/-- The services the detector calls: `php.LoadBuildpackYAML`, `filepath.Join`,
`filepath.Glob`, and the filesystem tree (`Files root`) that `os.Lstat` and
directory listing expose below a root path. -/
structure Host where
  LoadBuildpackYAML : String → Except Error BuildpackYAML
  Join : List String → String
  Glob : String → Except Error (List String)
  Files : String → Node

/-- Go `application.Application`: the application root directory. -/
structure Application where
  Root : String
  deriving DecidableEq, Repr

/-- Go `detect.Detect`, the detection context. Its logger is the list of
`LogEntry` values the functions return; `Pass` and `Fail` are the two
constructors of `Outcome`. -/
structure Detect where
  Application : Application
  deriving DecidableEq, Repr

/-- One call `log.Info(format, path, err)`. -/
structure LogEntry where
  format : String
  path : String
  err : Error
  deriving DecidableEq, Repr

/-- What `runDetect` returns: `Pass plan` is `return context.Pass(plan)`, which
hands the build plan to the host; `Fail err` is `return context.Fail(), err`,
which hands over no plan. -/
inductive Outcome
  | Pass (plan : BuildPlan)
  | Fail (err : Option Error)
  deriving DecidableEq, Repr

/-- The build plan an outcome emits, if any. -/
def Outcome.plan : Outcome → Option BuildPlan
  | .Pass plan => some plan
  | .Fail _ => none

/-! ## `cmd/detect/main.go` -/

/-- Go `pickWebDir`. -/
def pickWebDir (buildpackYAML : BuildpackYAML) : String :=
  if buildpackYAML.Config.WebDirectory ≠ "" then
    buildpackYAML.Config.WebDirectory
  else
    "htdocs"

/-- Go `searchForWebApp`. -/
def searchForWebApp (host : Host) (appRoot : String) (webdir : String) :
    Bool × Option Error :=
  match host.Glob (host.Join [appRoot, webdir, "*.php"]) with
  | .error err => (false, some err)
  | .ok matchList =>
    if matchList.length > 0 then (true, none)
    else (false, none)

/-- The variables the closure in `searchForScript` captures and changes: the
`found` flag and the logger output. -/
structure ScanState where
  found : Bool
  log : List LogEntry
  deriving DecidableEq, Repr

/-- The closure `searchForScript` passes to `filepath.Walk`. -/
def scriptWalkFn : WalkFunc ScanState
  | path, .failed _ err, s =>
    (some Error.SkipDir,
      { s with log := s.log ++ [⟨"failure accessing a path %q: %v\n", path, err⟩] })
  | _, .ok info, s =>
    if s.found then (some Error.SkipDir, s)
    else if !info.IsDir && strings.HasSuffix info.Name ".php" then
      (none, { s with found := true })
    else (none, s)

/-- Go `searchForScript`: the returned pair `(bool, error)` and what was logged. -/
def searchForScript (host : Host) (appRoot : String) : (Bool × Option Error) × List LogEntry :=
  let r := filepath.Walk host.Join appRoot (host.Files appRoot) scriptWalkFn ⟨false, []⟩
  match r.1 with
  | some err => ((false, some err), r.2.log)
  | none => ((r.2.found, none), r.2.log)

/-- Go `runDetect`: the outcome and what was logged. -/
def runDetect (c : Constants) (host : Host) (context : Detect) : Outcome × List LogEntry :=
  match host.LoadBuildpackYAML context.Application.Root with
  | .error err => (Outcome.Fail (some err), [])
  | .ok buildpackYAML =>
    let webdir := pickWebDir buildpackYAML
    match searchForWebApp host context.Application.Root webdir with
    | (_, some err) => (Outcome.Fail (some err), [])
    | (true, none) =>
      (Outcome.Pass [(c.Dependency, ⟨[("launch", true)]⟩), (c.WebDependency, ⟨[]⟩)], [])
    | (false, none) =>
      match searchForScript host context.Application.Root with
      | ((_, some err), log) => (Outcome.Fail (some err), log)
      | ((true, none), log) =>
        (Outcome.Pass [(c.Dependency, ⟨[("launch", true)]⟩), (c.ScriptDependency, ⟨[]⟩)], log)
      | ((false, none), log) => (Outcome.Fail none, log)

/-! ## The contributor -/

/-- Go `layers.Process`: a process type (`web` or `task`) and its start command. -/
structure Process where
  ProcessType : String
  Command : String
  deriving DecidableEq, Repr

/-- Go `procmgr.Proc`: one entry of the process-manager descriptor `procs.yml`. -/
structure Proc where
  Command : String
  Args : List String
  deriving DecidableEq, Repr

/-- What a contribution leaves behind: the declared processes, the paths of the
files written, the environment variables set, the entries of the
process-manager descriptor, the warnings logged, and the metadata hash. -/
structure Contribution where
  Processes : List Process
  Written : List String
  Environment : List (String × String)
  Procs : List Proc
  Warnings : List String
  Hash : String
  deriving DecidableEq, Repr

/-- Modelled from the spec: the default script search list of the configuration
(`phpweb.DefaultCliScripts`), declared in a source file that is not embedded
here; section 3 gives it as `[app.php, main.php, run.php, start.php]`. -/
def DefaultCliScripts : List String :=
  ["app.php", "main.php", "run.php", "start.php"]

/-- The directory at the root of the tree has a non-directory entry `name`. -/
def Node.hasFile (t : Node) (name : String) : Bool :=
  match t with
  | .dir _ children =>
    children.any fun c =>
      match c with
      | .entry n _ => n == name
      | _ => false
  | _ => false

/-- Modelled from the spec: the selected web server of section 4.2 step 2,
"Resolve selected web server (default apache-proxy)"; the function is declared
in a source file that is not embedded here. -/
def pickWebServer (c : Constants) (buildpackYAML : BuildpackYAML) : String :=
  if buildpackYAML.Config.WebServer ≠ "" then
    buildpackYAML.Config.WebServer
  else
    c.ApacheHttpd

/-- Modelled from the spec: the PHP-FPM entry of the process-manager descriptor,
section 4.2: the FPM binary with
`-p <layerRoot> -y <layerRoot>/etc/php-fpm.conf -c <layerRoot>/etc`. -/
def phpFpmProc (layerRoot : String) : Proc :=
  ⟨"php-fpm", ["-p", layerRoot, "-y", layerRoot ++ "/etc/php-fpm.conf", "-c",
    layerRoot ++ "/etc"]⟩

/-- Modelled from the spec: `Contributor.Contribute`, whose source
(`phpweb/contributor.go`) is not embedded here; only its test
(`phpweb/contributor_test.go`) is available.
Section 4.2 of the specification, in order:

1. the web-directory glob check of detection decides web app or script;
2. for a web app, `etc/php.ini` is written and `PHPRC`, `PHP_INI_SCAN_DIR` are
   set whatever the server; the built-in server declares `task` and `web` with
   `php -S 0.0.0.0:$PORT -t <appRoot>/<webdir>`; the Apache and Nginx proxies
   write `etc/php-fpm.conf`, the server configuration at the application root
   and `procs.yml`, and declare one `web` process running the process manager
   on `procs.yml`; an unrecognised server declares nothing and still succeeds;
3. for a script, `etc/php.ini` and the environment are written as well; the
   script is the configured one, or the first of the default list present at
   the application root; without one a warning is logged and nothing is
   declared; otherwise `task` and `web` run `php <appRoot>/<script>`;
4. the metadata hash is a fresh random value on every run. -/
def Contribute (c : Constants) (host : Host) (buildpackYAML : BuildpackYAML)
    (appRoot layerRoot randomHash : String) : Except Error Contribution :=
  let ini := [layerRoot ++ "/etc/php.ini"]
  let env := [("PHPRC", layerRoot ++ "/etc"), ("PHP_INI_SCAN_DIR", appRoot ++ "/.php.ini.d")]
  let procFile := layerRoot ++ "/procs.yml"
  match searchForWebApp host appRoot (pickWebDir buildpackYAML) with
  | (_, some err) => .error err
  | (true, none) =>
    let webServer := pickWebServer c buildpackYAML
    if webServer = c.PhpWebServer then
      let command := "php -S 0.0.0.0:$PORT -t " ++ appRoot ++ "/" ++ pickWebDir buildpackYAML
      .ok ⟨[⟨"task", command⟩, ⟨"web", command⟩], ini, env, [], [], randomHash⟩
    else if webServer = c.ApacheHttpd then
      .ok ⟨[⟨"web", "procmgr " ++ procFile⟩],
        ini ++ [layerRoot ++ "/etc/php-fpm.conf", appRoot ++ "/httpd.conf", procFile], env,
        [phpFpmProc layerRoot,
          ⟨"httpd", ["-f", appRoot ++ "/httpd.conf", "-k", "start", "-DFOREGROUND"]⟩],
        [], randomHash⟩
    else if webServer = c.Nginx then
      .ok ⟨[⟨"web", "procmgr " ++ procFile⟩],
        ini ++ [layerRoot ++ "/etc/php-fpm.conf", appRoot ++ "/nginx.conf", procFile], env,
        [phpFpmProc layerRoot, ⟨"nginx", ["-p", appRoot, "-c", appRoot ++ "/nginx.conf"]⟩],
        [], randomHash⟩
    else
      .ok ⟨[], ini, env, [], [], randomHash⟩
  | (false, none) =>
    let script :=
      if buildpackYAML.Config.Script ≠ "" then some buildpackYAML.Config.Script
      else DefaultCliScripts.find? fun name => (host.Files appRoot).hasFile name
    match script with
    | none =>
      .ok ⟨[], ini, env, [],
        ["Buildpack could not find a file to execute. Either set php.script in " ++
          "buildpack.yml or include one of these files [app.php, main.php, run.php, start.php]"],
        randomHash⟩
    | some scriptPath =>
      let command := "php " ++ appRoot ++ "/" ++ scriptPath
      .ok ⟨[⟨"task", command⟩, ⟨"web", command⟩], ini, env, [], [], randomHash⟩

/-! ## What a tree contains -/

/-- The tree `t` has a non-directory entry named `n` of kind `k`, at any depth
below readable directories. The definition does not look at the order of the
children of a directory. -/
inductive Node.Contains : Node → String → EntryKind → Prop
  | here (n : String) (k : EntryKind) : Node.Contains (.entry n k) n k
  | inDir (d : String) (cs : List Node) (c : Node) (n : String) (k : EntryKind) :
      c ∈ cs → Node.Contains c n k → Node.Contains (.dir d cs) n k

/-- The tree has a non-directory entry whose name ends in `.php`. -/
def Node.ContainsScript (t : Node) : Prop :=
  ∃ n k, t.Contains n k ∧ strings.HasSuffix n ".php" = true

mutual
/-- Executable form of `Node.ContainsScript`. -/
def Node.hasScript : Node → Bool
  | .entry n _ => strings.HasSuffix n ".php"
  | .dir _ cs => Node.anyScript cs
  | .lockedDir _ _ => false
  | .missing _ _ => false
/-- Some node of the list has a non-directory entry whose name ends in `.php`. -/
def Node.anyScript : List Node → Bool
  | [] => false
  | c :: rest => c.hasScript || Node.anyScript rest
end

/-- The directory at the root of the tree has a readable sub-directory named
`webdir` that directly holds a non-directory entry whose name ends in `.php`:
a `*.php` file exists directly under `<appRoot>/<webdir>`. -/
def Node.hasWebScript (t : Node) (webdir : String) : Bool :=
  match t with
  | .dir _ children =>
    children.any fun c =>
      match c with
      | .dir n entries =>
        n == webdir && entries.any fun e =>
          match e with
          | .entry name _ => strings.HasSuffix name ".php"
          | _ => false
      | _ => false
  | _ => false

/-! ## Worlds used to evaluate the definitions -/

/-- The constants with the values the upstream packages give them. -/
def stdConstants : Constants :=
  ⟨"php-binary", "php-web", "php-script", "php-server", "httpd", "nginx"⟩

/-- A host whose `buildpack.yml` loads as `cfg`, with the given glob answers and
filesystem tree; `Join` puts a slash between the elements. -/
def mkHost (cfg : Config) (glob : String → Except Error (List String)) (tree : Node) : Host :=
  ⟨fun _ => .ok ⟨cfg⟩, fun elems => "/".intercalate elems, glob, fun _ => tree⟩

/-- The log line of a failed access. -/
def accessFailure (path : String) (err : Error) : LogEntry :=
  ⟨"failure accessing a path %q: %v\n", path, err⟩

/-- An application with `htdocs/index.php` and a script outside the web directory. -/
def webHost : Host :=
  mkHost ⟨"", "", ""⟩
    (fun pattern =>
      if pattern = "/app/htdocs/*.php" then .ok ["/app/htdocs/index.php"] else .ok [])
    (.dir "app" [.dir "htdocs" [.entry "index.php" .regular], .entry "worker.php" .regular])

/-- An application with no web directory, one entry whose `Lstat` fails, one
unreadable directory, and a script in `src`. -/
def scriptHost : Host :=
  mkHost ⟨"", "", ""⟩ (fun _ => .ok [])
    (.dir "app" [.missing "gone" (.other "ENOENT"), .lockedDir "priv" (.other "EACCES"),
      .dir "src" [.entry "a.txt" .regular, .entry "main.php" .regular], .entry "z" .regular])

/-- An application without any entry named `*.php`. -/
def plainHost : Host :=
  mkHost ⟨"", "", ""⟩ (fun _ => .ok []) (.dir "app" [.entry "README.md" .regular])

/-- An application without any entry named `*.php` whose configured web
directory is `[`: the pattern `/app/[/*.php` is malformed and `filepath.Glob`
answers `ErrBadPattern`. -/
def badPatternHost : Host :=
  mkHost ⟨"[", "", ""⟩
    (fun pattern => if pattern = "/app/[/*.php" then .error Error.ErrBadPattern else .ok [])
    (.dir "app" [.entry "README.md" .regular])

/-- An application whose configured web directory is `[` and whose directory
`[` holds `index.php`: the pattern `/app/[/*.php` is malformed and
`filepath.Glob` answers `ErrBadPattern`. -/
def bracketWebHost : Host :=
  mkHost ⟨"[", "", ""⟩
    (fun pattern => if pattern = "/app/[/*.php" then .error Error.ErrBadPattern else .ok [])
    (.dir "app" [.dir "[" [.entry "index.php" .regular]])

/-- An application root that `Lstat` cannot access. -/
def noRootHost : Host :=
  mkHost ⟨"", "", ""⟩ (fun _ => .ok []) (.missing "app" (.other "ENOENT"))

/-- An application whose only `*.php` entry is a symbolic link. -/
def symlinkHost : Host :=
  mkHost ⟨"", "", ""⟩ (fun _ => .ok []) (.dir "app" [.entry "index.php" .symlink])

/-- An application whose `buildpack.yml` cannot be loaded. -/
def noYamlHost : Host :=
  ⟨fun _ => .error (.other "yaml: unmarshal errors"), fun elems => "/".intercalate elems,
    fun _ => .ok [], fun _ => .dir "app" [.entry "index.php" .regular]⟩

/-- The detection context of the application at `/app`. -/
def appContext : Detect :=
  ⟨⟨"/app"⟩⟩

/-! ## Lemmas on the traversal -/

theorem anyScript_iff (cs : List Node) :
    Node.anyScript cs = true ↔ ∃ c ∈ cs, c.hasScript = true := by
  induction cs with
  | nil => simp [Node.anyScript]
  | cons c rest ih => simp [Node.anyScript, ih]

mutual
theorem hasScript_sound : ∀ t : Node, t.hasScript = true → t.ContainsScript
  | .entry n k, h => ⟨n, k, Node.Contains.here n k, by simpa [Node.hasScript] using h⟩
  | .dir d cs, h => by
    obtain ⟨c, hc, n, k, hk, hn⟩ := anyScript_sound cs (by simpa [Node.hasScript] using h)
    exact ⟨n, k, Node.Contains.inDir d cs c n k hc hk, hn⟩
  | .lockedDir _ _, h => by simp [Node.hasScript] at h
  | .missing _ _, h => by simp [Node.hasScript] at h
theorem anyScript_sound : ∀ cs : List Node, Node.anyScript cs = true →
    ∃ c ∈ cs, c.ContainsScript
  | [], h => by simp [Node.anyScript] at h
  | c :: rest, h => by
    simp only [Node.anyScript, Bool.or_eq_true] at h
    rcases h with h | h
    · exact ⟨c, List.mem_cons_self _ _, hasScript_sound c h⟩
    · obtain ⟨c', hc', hp⟩ := anyScript_sound rest h
      exact ⟨c', List.mem_cons_of_mem _ hc', hp⟩
end

theorem contains_hasScript {t : Node} {n : String} {k : EntryKind} (h : t.Contains n k)
    (hn : strings.HasSuffix n ".php" = true) : t.hasScript = true := by
  induction h with
  | here n k => simpa [Node.hasScript] using hn
  | inDir d cs c n k hc _ ih =>
    simp only [Node.hasScript]
    exact (anyScript_iff cs).2 ⟨c, hc, ih hn⟩

theorem hasScript_iff (t : Node) : t.hasScript = true ↔ t.ContainsScript :=
  ⟨hasScript_sound t, fun ⟨_, _, hk, hn⟩ => contains_hasScript hk hn⟩

theorem entry_not_dir (n : String) (k : EntryKind) :
    FileInfo.IsDir ⟨n, k.toMode⟩ = false := by
  cases k <;> rfl

theorem scriptWalkFn_found (path : String) (v : Visit) (s : ScanState) (h : s.found = true) :
    (scriptWalkFn path v s).1 = some Error.SkipDir ∧ (scriptWalkFn path v s).2.found = true := by
  cases v with
  | ok info => simp [scriptWalkFn, h]
  | failed info err => simp [scriptWalkFn, h]

theorem scriptWalkFn_entry (path n : String) (k : EntryKind) (s : ScanState)
    (h : s.found = false) :
    scriptWalkFn path (.ok ⟨n, k.toMode⟩) s =
      (none, { s with found := strings.HasSuffix n ".php" }) := by
  cases s with
  | mk found log =>
    simp only at h
    subst h
    by_cases hn : strings.HasSuffix n ".php" = true
    · simp [scriptWalkFn, entry_not_dir, hn]
    · simp only [Bool.not_eq_true] at hn
      simp [scriptWalkFn, entry_not_dir, hn]

mutual
theorem walk_script (Join : List String → String) :
    ∀ (t : Node) (path : String) (s : ScanState),
      (filepath.walk Join scriptWalkFn path t s).2.found = (s.found || t.hasScript) ∧
      ((filepath.walk Join scriptWalkFn path t s).1 = none ∨
        (filepath.walk Join scriptWalkFn path t s).1 = some Error.SkipDir) ∧
      (∀ n k, t = .entry n k →
        (filepath.walk Join scriptWalkFn path t s).1 = some Error.SkipDir → s.found = true)
  | .entry n k, path, s => by
    cases hf : s.found with
    | true =>
      have h := scriptWalkFn_found path (.ok ⟨n, k.toMode⟩) s hf
      simp [filepath.walk, h.1, h.2]
    | false =>
      simp [filepath.walk, scriptWalkFn_entry path n k s hf, Node.hasScript]
  | .lockedDir n e, path, s => by
    simp [filepath.walk, scriptWalkFn, Node.hasScript]
  | .missing n e, path, s => by
    simp [filepath.walk, scriptWalkFn, Node.hasScript]
  | .dir n cs, path, s => by
    cases hf : s.found with
    | true =>
      have h : scriptWalkFn path (.ok ⟨n, FileMode.dir⟩) s = (some Error.SkipDir, s) := by
        simp [scriptWalkFn, hf]
      simp [filepath.walk, h, hf]
    | false =>
      have h : scriptWalkFn path (.ok ⟨n, FileMode.dir⟩) s = (none, s) := by
        simp [scriptWalkFn, hf, FileInfo.IsDir]
      have ih := walkNames_script Join cs path s
      simp only [filepath.walk, h, Node.hasScript]
      rw [hf] at ih
      exact ⟨ih.1, ih.2, fun _ _ hne => by cases hne⟩
theorem walkNames_script (Join : List String → String) :
    ∀ (cs : List Node) (path : String) (s : ScanState),
      (filepath.walkNames Join scriptWalkFn path cs s).2.found = (s.found || Node.anyScript cs) ∧
      ((filepath.walkNames Join scriptWalkFn path cs s).1 = none ∨
        (filepath.walkNames Join scriptWalkFn path cs s).1 = some Error.SkipDir)
  | [], path, s => by simp [filepath.walkNames, Node.anyScript]
  | c :: rest, path, s => by
    have ihc := walk_script Join c (Join [path, c.name]) s
    cases c with
    | missing n e =>
      have ihr := walkNames_script Join rest path
        { s with log := s.log ++ [⟨"failure accessing a path %q: %v\n", Join [path, n], e⟩] }
      simp only [filepath.walkNames, Node.lstat, Node.name, scriptWalkFn, ne_eq,
        not_true_eq_false, if_false, Node.anyScript, Node.hasScript, Bool.false_or]
      exact ihr
    | entry n k =>
      simp only [filepath.walkNames, Node.lstat, Node.name, entry_not_dir, Bool.not_false,
        Bool.true_or, if_true, Node.anyScript, Node.hasScript] at ihc ⊢
      rcases hw : filepath.walk Join scriptWalkFn (Join [path, n]) (.entry n k) s with ⟨r, s1⟩
      rw [hw] at ihc
      cases r with
      | some err =>
        obtain ⟨h1, h2, h3⟩ := ihc
        simp only [reduceCtorEq, false_or, Option.some.injEq] at h2
        have hf := h3 n k rfl (by rw [h2])
        simp only at h1 ⊢
        rw [hf] at h1 ⊢
        simp [h1, h2]
      | none =>
        have ihr := walkNames_script Join rest path s1
        simp only at ihc ⊢
        rw [ihr.1, ihc.1, Bool.or_assoc]
        exact ⟨rfl, ihr.2⟩
    | dir n cs =>
      simp only [filepath.walkNames, Node.lstat, Node.name, Node.anyScript] at ihc ⊢
      rcases hw : filepath.walk Join scriptWalkFn (Join [path, n]) (.dir n cs) s with ⟨r, s1⟩
      rw [hw] at ihc
      have ihr := walkNames_script Join rest path s1
      cases r with
      | some err =>
        obtain ⟨h1, h2, _⟩ := ihc
        simp only [reduceCtorEq, false_or, Option.some.injEq] at h2
        subst h2
        simp only [FileInfo.IsDir, beq_self_eq_true, Bool.not_true, ne_eq, not_true_eq_false,
          decide_False, Bool.or_self, Bool.false_eq_true, if_false]
        simp only at h1
        rw [ihr.1, h1, Bool.or_assoc]
        exact ⟨rfl, ihr.2⟩
      | none =>
        simp only at ihc ⊢
        rw [ihr.1, ihc.1, Bool.or_assoc]
        exact ⟨rfl, ihr.2⟩
    | lockedDir n e =>
      have ihr := walkNames_script Join rest path
        { s with log := s.log ++ [⟨"failure accessing a path %q: %v\n", Join [path, n], e⟩] }
      simp only [filepath.walkNames, Node.lstat, Node.name, filepath.walk, scriptWalkFn,
        FileInfo.IsDir, beq_self_eq_true, Bool.not_true, ne_eq, not_true_eq_false,
        decide_False, Bool.or_self, Bool.false_eq_true, if_false, Node.anyScript,
        Node.hasScript, Bool.false_or]
      exact ihr
end

theorem Walk_script (Join : List String → String) (root : String) (t : Node) :
    (filepath.Walk Join root t scriptWalkFn ⟨false, []⟩).1 = none ∧
    (filepath.Walk Join root t scriptWalkFn ⟨false, []⟩).2.found = t.hasScript := by
  cases t with
  | missing n e => simp [filepath.Walk, Node.lstat, scriptWalkFn, Node.hasScript]
  | lockedDir n e =>
    simp [filepath.Walk, Node.lstat, filepath.walk, scriptWalkFn, Node.hasScript]
  | entry n k =>
    obtain ⟨h1, h2, _⟩ := walk_script Join (.entry n k) root ⟨false, []⟩
    simp only [filepath.Walk, Node.lstat]
    rcases h2 with h2 | h2 <;> simp [h2, h1]
  | dir n cs =>
    obtain ⟨h1, h2, _⟩ := walk_script Join (.dir n cs) root ⟨false, []⟩
    simp only [filepath.Walk, Node.lstat]
    rcases h2 with h2 | h2 <;> simp [h2, h1]

theorem searchForScript_eq (host : Host) (appRoot : String) :
    (searchForScript host appRoot).1 = ((host.Files appRoot).hasScript, none) := by
  obtain ⟨h1, h2⟩ := Walk_script host.Join appRoot (host.Files appRoot)
  simp only [searchForScript, h1, h2]

theorem searchForWebApp_match (host : Host) (appRoot webdir m : String) (ms : List String)
    (h : host.Glob (host.Join [appRoot, webdir, "*.php"]) = .ok (m :: ms)) :
    searchForWebApp host appRoot webdir = (true, none) := by
  simp [searchForWebApp, h]

theorem searchForWebApp_empty (host : Host) (appRoot webdir : String)
    (h : host.Glob (host.Join [appRoot, webdir, "*.php"]) = .ok []) :
    searchForWebApp host appRoot webdir = (false, none) := by
  simp [searchForWebApp, h]

theorem searchForWebApp_error (host : Host) (appRoot webdir : String) (e : Error)
    (h : host.Glob (host.Join [appRoot, webdir, "*.php"]) = .error e) :
    searchForWebApp host appRoot webdir = (false, some e) := by
  simp [searchForWebApp, h]

/-- The outcome of `runDetect` once the configuration is loaded and the glob has
found nothing: it is decided by the recursive search alone. -/
theorem runDetect_no_web (c : Constants) (host : Host) (context : Detect)
    (buildpackYAML : BuildpackYAML)
    (hload : host.LoadBuildpackYAML context.Application.Root = .ok buildpackYAML)
    (hglob : host.Glob (host.Join [context.Application.Root, pickWebDir buildpackYAML,
      "*.php"]) = .ok []) :
    runDetect c host context =
      (if (host.Files context.Application.Root).hasScript then
        Outcome.Pass [(c.Dependency, ⟨[("launch", true)]⟩), (c.ScriptDependency, ⟨[]⟩)]
       else Outcome.Fail none,
       (searchForScript host context.Application.Root).2) := by
  have hs := searchForScript_eq host context.Application.Root
  rcases hr : searchForScript host context.Application.Root with ⟨⟨found, err⟩, log⟩
  rw [hr] at hs
  simp only [Prod.mk.injEq] at hs
  obtain ⟨hfound, herr⟩ := hs
  subst herr
  simp only [runDetect, hload, searchForWebApp_empty host _ _ hglob, hr]
  cases found <;> simp [← hfound]

theorem contains_dir_iff (d : String) (cs : List Node) (n : String) (k : EntryKind) :
    (Node.dir d cs).Contains n k ↔ ∃ c ∈ cs, c.Contains n k := by
  constructor
  · intro h
    cases h with
    | inDir _ _ c _ _ hc hk => exact ⟨c, hc, hk⟩
  · rintro ⟨c, hc, hk⟩
    exact Node.Contains.inDir d cs c n k hc hk

theorem hasScript_congr {t u : Node} (h : ∀ n k, t.Contains n k ↔ u.Contains n k) :
    u.hasScript = t.hasScript := by
  have hiff : u.hasScript = true ↔ t.hasScript = true := by
    rw [hasScript_iff, hasScript_iff]
    constructor
    · rintro ⟨n, k, hk, hn⟩
      exact ⟨n, k, (h n k).2 hk, hn⟩
    · rintro ⟨n, k, hk, hn⟩
      exact ⟨n, k, (h n k).1 hk, hn⟩
  cases hu : u.hasScript <;> cases ht : t.hasScript <;> simp_all

theorem walkNames_skips_failed (Join : List String → String) (path : String) (c : Node)
    (rest : List Node) (s : ScanState) (err : Error)
    (hc : c.lstat = .error err ∨ ∃ n, c = .lockedDir n err) :
    filepath.walkNames Join scriptWalkFn path (c :: rest) s =
      filepath.walkNames Join scriptWalkFn path rest
        { s with log := s.log ++ [accessFailure (Join [path, c.name]) err] } := by
  cases c with
  | missing n e =>
    rcases hc with hc | ⟨_, hc⟩
    · simp only [Node.lstat, Except.error.injEq] at hc
      subst hc
      simp [filepath.walkNames, Node.lstat, Node.name, scriptWalkFn, accessFailure]
    · cases hc
  | lockedDir n e =>
    rcases hc with hc | ⟨_, hc⟩
    · simp [Node.lstat] at hc
    · cases hc
      simp [filepath.walkNames, Node.lstat, Node.name, filepath.walk, scriptWalkFn,
        accessFailure, FileInfo.IsDir]
  | entry n k =>
    rcases hc with hc | ⟨_, hc⟩
    · simp [Node.lstat] at hc
    · cases hc
  | dir n cs =>
    rcases hc with hc | ⟨_, hc⟩
    · simp [Node.lstat] at hc
    · cases hc

theorem searchForScript_root_failed (host : Host) (appRoot n : String) (err : Error)
    (hroot : host.Files appRoot = .missing n err ∨ host.Files appRoot = .lockedDir n err) :
    searchForScript host appRoot = ((false, none), [accessFailure appRoot err]) := by
  rcases hroot with h | h <;>
    simp [searchForScript, filepath.Walk, filepath.walk, h, Node.lstat, scriptWalkFn,
      accessFailure]

/-- Whatever the host, `runDetect` ends in one of three ways: the web plan, the
script plan, or the fail result. -/
theorem runDetect_cases (c : Constants) (host : Host) (context : Detect) :
    (runDetect c host context).1 =
        Outcome.Pass [(c.Dependency, ⟨[("launch", true)]⟩), (c.WebDependency, ⟨[]⟩)] ∨
    (runDetect c host context).1 =
        Outcome.Pass [(c.Dependency, ⟨[("launch", true)]⟩), (c.ScriptDependency, ⟨[]⟩)] ∨
    ∃ err, (runDetect c host context).1 = Outcome.Fail err := by
  rcases hload : host.LoadBuildpackYAML context.Application.Root with e | y
  · exact Or.inr (Or.inr ⟨some e, by simp only [runDetect, hload]⟩)
  · rcases hg : host.Glob (host.Join [context.Application.Root, pickWebDir y, "*.php"])
      with e | matchList
    · exact Or.inr (Or.inr ⟨some e, by
        simp only [runDetect, hload, searchForWebApp_error host _ _ e hg]⟩)
    · cases matchList with
      | cons m ms =>
        exact Or.inl (by simp only [runDetect, hload, searchForWebApp_match host _ _ m ms hg])
      | nil =>
        rw [runDetect_no_web c host context y hload hg]
        cases (host.Files context.Application.Root).hasScript with
        | true => exact Or.inr (Or.inl rfl)
        | false => exact Or.inr (Or.inr ⟨none, rfl⟩)

/-! ## Claims -/

/-- C8, as stated, fails: with `WebDirectory = "htdocs"` configured, `pickWebDir`
returns `"htdocs"` although the configured value is not empty, so `"htdocs"` is
not returned exactly when the configured value is empty. -/
theorem pickWebDir_htdocs_not_only_when_empty :
    pickWebDir ⟨⟨"htdocs", "", ""⟩⟩ = "htdocs" ∧
    (⟨⟨"htdocs", "", ""⟩⟩ : BuildpackYAML).Config.WebDirectory ≠ "" ∧
    ¬ (∀ y : BuildpackYAML,
      (y.Config.WebDirectory ≠ "" → pickWebDir y = y.Config.WebDirectory) ∧
      (pickWebDir y = "htdocs" ↔ y.Config.WebDirectory = "") ∧
      pickWebDir y ≠ "") := by
  refine ⟨by decide, by decide, fun h => ?_⟩
  have h1 := (h ⟨⟨"htdocs", "", ""⟩⟩).2.1.1 (by decide)
  exact absurd h1 (by decide)

/-- C8, amended: `pickWebDir` returns the configured `WebDirectory` whenever it is
non-empty and `"htdocs"` whenever it is empty; it returns `"htdocs"` exactly when
the configured value is empty or is `"htdocs"` itself; its result is never the
empty string. -/
theorem pickWebDir_spec (y : BuildpackYAML) :
    (y.Config.WebDirectory ≠ "" → pickWebDir y = y.Config.WebDirectory) ∧
    (y.Config.WebDirectory = "" → pickWebDir y = "htdocs") ∧
    (pickWebDir y = "htdocs" ↔
      y.Config.WebDirectory = "" ∨ y.Config.WebDirectory = "htdocs") ∧
    pickWebDir y ≠ "" := by
  by_cases h : y.Config.WebDirectory = ""
  · simp [pickWebDir, h]
  · simp [pickWebDir, h]

/-- Witness for C8: a configured `public` is returned as is. -/
theorem pickWebDir_spec_witness :
    ("public" : String) ≠ "" ∧ pickWebDir ⟨⟨"public", "", ""⟩⟩ = "public" :=
  ⟨by decide, (pickWebDir_spec ⟨⟨"public", "", ""⟩⟩).1 (by decide)⟩

/-- C1, as stated, fails: the application below holds `index.php` directly under
its configured web directory `[` and its configuration loads, but the glob
pattern `/app/[/*.php` is malformed, and `runDetect` returns the fail result
together with `ErrBadPattern` instead of passing with the web plan. -/
theorem runDetect_web_file_bad_pattern :
    bracketWebHost.LoadBuildpackYAML appContext.Application.Root = .ok ⟨⟨"[", "", ""⟩⟩ ∧
    (bracketWebHost.Files appContext.Application.Root).hasWebScript
      (pickWebDir ⟨⟨"[", "", ""⟩⟩) = true ∧
    (runDetect stdConstants bracketWebHost appContext).1 =
      Outcome.Fail (some Error.ErrBadPattern) ∧
    (runDetect stdConstants bracketWebHost appContext).1 ≠
      Outcome.Pass [(stdConstants.Dependency, ⟨[("launch", true)]⟩),
        (stdConstants.WebDependency, ⟨[]⟩)] :=
  ⟨rfl, by decide, by decide, by decide⟩

/-- C1, amended: for every application root and every successfully loaded
configuration, if the glob `<appRoot>/<pickWebDir>/*.php` returns a nil error
and at least one match, `runDetect` returns `context.Pass` of the plan made of
the PHP dependency with `"launch": true` and the web marker
`phpweb.WebDependency`, and logs nothing. -/
theorem runDetect_web_app (c : Constants) (host : Host) (context : Detect)
    (buildpackYAML : BuildpackYAML) (m : String) (ms : List String)
    (hload : host.LoadBuildpackYAML context.Application.Root = .ok buildpackYAML)
    (hglob : host.Glob (host.Join [context.Application.Root, pickWebDir buildpackYAML,
      "*.php"]) = .ok (m :: ms)) :
    runDetect c host context =
      (Outcome.Pass [(c.Dependency, ⟨[("launch", true)]⟩), (c.WebDependency, ⟨[]⟩)], []) ∧
    ∃ plan, (runDetect c host context).1.plan = some plan ∧
      c.WebDependency ∈ plan.keys ∧
      ∃ dep, (c.Dependency, dep) ∈ plan ∧ ("launch", true) ∈ dep.Metadata := by
  have h : runDetect c host context =
      (Outcome.Pass [(c.Dependency, ⟨[("launch", true)]⟩), (c.WebDependency, ⟨[]⟩)], []) := by
    simp only [runDetect, hload, searchForWebApp_match host _ _ m ms hglob]
  refine ⟨h, _, by rw [h]; rfl, by simp [BuildPlan.keys], ⟨[("launch", true)]⟩, ?_, ?_⟩ <;> simp

/-- Witness for C1: the application with `htdocs/index.php`. -/
theorem runDetect_web_app_witness :
    webHost.LoadBuildpackYAML appContext.Application.Root = .ok ⟨⟨"", "", ""⟩⟩ ∧
    webHost.Glob (webHost.Join [appContext.Application.Root, pickWebDir ⟨⟨"", "", ""⟩⟩,
      "*.php"]) = .ok ["/app/htdocs/index.php"] ∧
    runDetect stdConstants webHost appContext =
      (Outcome.Pass [("php-binary", ⟨[("launch", true)]⟩), ("php-web", ⟨[]⟩)], []) :=
  ⟨rfl, rfl,
    (runDetect_web_app stdConstants webHost appContext ⟨⟨"", "", ""⟩⟩ "/app/htdocs/index.php" []
      rfl rfl).1⟩

/-- C2: for every application root whose configuration loads, whose web-directory
glob returns no match, and whose tree has a non-directory entry named `*.php` at
any depth, `runDetect` returns `context.Pass` of the plan made of the PHP
dependency with `"launch": true` and the script marker
`phpweb.ScriptDependency`; the plan does not contain the web marker. -/
theorem runDetect_script (c : Constants) (host : Host) (context : Detect)
    (buildpackYAML : BuildpackYAML) (hc : c.PlanNamesDistinct)
    (hload : host.LoadBuildpackYAML context.Application.Root = .ok buildpackYAML)
    (hglob : host.Glob (host.Join [context.Application.Root, pickWebDir buildpackYAML,
      "*.php"]) = .ok [])
    (hphp : (host.Files context.Application.Root).ContainsScript) :
    (runDetect c host context).1 =
      Outcome.Pass [(c.Dependency, ⟨[("launch", true)]⟩), (c.ScriptDependency, ⟨[]⟩)] ∧
    ∃ plan, (runDetect c host context).1.plan = some plan ∧
      c.ScriptDependency ∈ plan.keys ∧
      (∃ dep, (c.Dependency, dep) ∈ plan ∧ ("launch", true) ∈ dep.Metadata) ∧
      c.WebDependency ∉ plan.keys := by
  have h := runDetect_no_web c host context buildpackYAML hload hglob
  rw [(hasScript_iff _).2 hphp] at h
  simp only [if_true] at h
  obtain ⟨h1, _, h3⟩ := hc
  refine ⟨by rw [h], _, by rw [h]; rfl, by simp [BuildPlan.keys], ⟨⟨[("launch", true)]⟩, ?_, ?_⟩,
    ?_⟩
  · simp
  · simp
  · simp only [BuildPlan.keys, List.map_cons, List.map_nil, List.mem_cons, List.mem_singleton,
      List.not_mem_nil, or_false, not_or]
    exact ⟨fun h => h1 h.symm, h3⟩

/-- Witness for C2: the script is found in `src` although two earlier entries of
the application root cannot be accessed. -/
theorem runDetect_script_witness :
    stdConstants.PlanNamesDistinct ∧
    (scriptHost.Files appContext.Application.Root).ContainsScript ∧
    (runDetect stdConstants scriptHost appContext).1 =
      Outcome.Pass [("php-binary", ⟨[("launch", true)]⟩), ("php-script", ⟨[]⟩)] :=
  ⟨by decide, (hasScript_iff _).1 (by decide),
    (runDetect_script stdConstants scriptHost appContext ⟨⟨"", "", ""⟩⟩ (by decide) rfl rfl
      ((hasScript_iff _).1 (by decide))).1⟩

/-- C3, as stated, fails: the application below has no entry named `*.php` and
its configuration loads, but the configured web directory `[` makes the glob
pattern malformed, and `runDetect` returns the fail result together with
`ErrBadPattern`, not with a nil error. -/
theorem runDetect_no_php_bad_pattern :
    badPatternHost.LoadBuildpackYAML appContext.Application.Root = .ok ⟨⟨"[", "", ""⟩⟩ ∧
    ¬ (badPatternHost.Files appContext.Application.Root).ContainsScript ∧
    (runDetect stdConstants badPatternHost appContext).1 =
      Outcome.Fail (some Error.ErrBadPattern) ∧
    (runDetect stdConstants badPatternHost appContext).1 ≠ Outcome.Fail none :=
  ⟨rfl, fun h => absurd ((hasScript_iff _).2 h) (by decide), by decide, by decide⟩

/-- C3, amended: for every application root whose configuration loads, whose tree
has no entry named `*.php` anywhere and whose web-directory glob reports no
match, `runDetect` returns the fail result and emits no build plan; the returned
error is nil when the glob returned a nil error, and is the error of the glob
otherwise. -/
theorem runDetect_no_php (c : Constants) (host : Host) (context : Detect)
    (buildpackYAML : BuildpackYAML)
    (hload : host.LoadBuildpackYAML context.Application.Root = .ok buildpackYAML)
    (hnone : ¬ (host.Files context.Application.Root).ContainsScript)
    (hglob : ∀ m ms, host.Glob (host.Join [context.Application.Root,
      pickWebDir buildpackYAML, "*.php"]) ≠ .ok (m :: ms)) :
    (∃ err, (runDetect c host context).1 = Outcome.Fail err) ∧
    (runDetect c host context).1.plan = none ∧
    (host.Glob (host.Join [context.Application.Root, pickWebDir buildpackYAML, "*.php"]) =
        .ok [] → (runDetect c host context).1 = Outcome.Fail none) ∧
    (∀ e, host.Glob (host.Join [context.Application.Root, pickWebDir buildpackYAML,
        "*.php"]) = .error e → runDetect c host context = (Outcome.Fail (some e), [])) := by
  have hfalse : (host.Files context.Application.Root).hasScript = false := by
    cases hb : (host.Files context.Application.Root).hasScript with
    | false => rfl
    | true => exact absurd ((hasScript_iff _).1 hb) hnone
  have hok : host.Glob (host.Join [context.Application.Root, pickWebDir buildpackYAML,
      "*.php"]) = .ok [] → (runDetect c host context).1 = Outcome.Fail none := by
    intro hg
    rw [runDetect_no_web c host context buildpackYAML hload hg, hfalse]
    rfl
  have herr : ∀ e, host.Glob (host.Join [context.Application.Root, pickWebDir buildpackYAML,
      "*.php"]) = .error e → runDetect c host context = (Outcome.Fail (some e), []) := by
    intro e hg
    simp only [runDetect, hload, searchForWebApp_error host _ _ e hg]
  have hfail : ∃ err, (runDetect c host context).1 = Outcome.Fail err := by
    rcases hg : host.Glob (host.Join [context.Application.Root, pickWebDir buildpackYAML,
        "*.php"]) with e | matchList
    · exact ⟨some e, by rw [herr e hg]⟩
    · cases matchList with
      | nil => exact ⟨none, hok hg⟩
      | cons m ms => exact absurd hg (hglob m ms)
  obtain ⟨err, he⟩ := hfail
  exact ⟨⟨err, he⟩, by rw [he]; rfl, hok, herr⟩

/-- Witness for C3: the application that holds only `README.md`. -/
theorem runDetect_no_php_witness :
    plainHost.LoadBuildpackYAML appContext.Application.Root = .ok ⟨⟨"", "", ""⟩⟩ ∧
    ¬ (plainHost.Files appContext.Application.Root).ContainsScript ∧
    (runDetect stdConstants plainHost appContext).1 = Outcome.Fail none :=
  ⟨rfl, fun h => absurd ((hasScript_iff _).2 h) (by decide),
    (runDetect_no_php stdConstants plainHost appContext ⟨⟨"", "", ""⟩⟩ rfl
      (fun h => absurd ((hasScript_iff _).2 h) (by decide))
      (fun _ _ h => by cases h)).2.2.1 rfl⟩

/-- C4: with pairwise different plan entry names, every run of `runDetect` ends
in exactly one of three ways (web plan, script plan, fail); every passing plan
has exactly two entries with different names, the PHP dependency with
`"launch": true` and exactly one of the web marker and the script marker; and
when the web-directory glob matches, the web plan is returned whatever the
filesystem tree holds, so the recursive walk is not consulted. -/
theorem runDetect_exactly_one (c : Constants) (host : Host) (context : Detect)
    (hc : c.PlanNamesDistinct) :
    ((runDetect c host context).1 =
        Outcome.Pass [(c.Dependency, ⟨[("launch", true)]⟩), (c.WebDependency, ⟨[]⟩)] ∨
      (runDetect c host context).1 =
        Outcome.Pass [(c.Dependency, ⟨[("launch", true)]⟩), (c.ScriptDependency, ⟨[]⟩)] ∨
      ∃ err, (runDetect c host context).1 = Outcome.Fail err) ∧
    (∀ plan, (runDetect c host context).1 = Outcome.Pass plan →
      plan.length = 2 ∧ plan.keys.Nodup ∧
      (c.Dependency, (⟨[("launch", true)]⟩ : Dependency)) ∈ plan ∧
      ((c.WebDependency ∈ plan.keys ∧ c.ScriptDependency ∉ plan.keys) ∨
        (c.ScriptDependency ∈ plan.keys ∧ c.WebDependency ∉ plan.keys))) ∧
    (∀ buildpackYAML m ms,
      host.LoadBuildpackYAML context.Application.Root = .ok buildpackYAML →
      host.Glob (host.Join [context.Application.Root, pickWebDir buildpackYAML, "*.php"]) =
        .ok (m :: ms) →
      ∀ files : String → Node,
        runDetect c { host with Files := files } context =
          (Outcome.Pass [(c.Dependency, ⟨[("launch", true)]⟩), (c.WebDependency, ⟨[]⟩)],
            [])) := by
  obtain ⟨h1, h2, h3⟩ := hc
  refine ⟨runDetect_cases c host context, ?_, ?_⟩
  · intro plan hplan
    rcases runDetect_cases c host context with h | h | ⟨err, h⟩
    · rw [h] at hplan
      cases hplan
      refine ⟨rfl, by simp [BuildPlan.keys, h1], by simp, Or.inl ?_⟩
      simp only [BuildPlan.keys, List.map_cons, List.map_nil, List.mem_cons,
        List.mem_singleton, List.not_mem_nil, or_false, not_or]
      exact ⟨Or.inr trivial, fun h => h2 h.symm, fun h => h3 h.symm⟩
    · rw [h] at hplan
      cases hplan
      refine ⟨rfl, by simp [BuildPlan.keys, h2], by simp, Or.inr ?_⟩
      simp only [BuildPlan.keys, List.map_cons, List.map_nil, List.mem_cons,
        List.mem_singleton, List.not_mem_nil, or_false, not_or]
      exact ⟨Or.inr trivial, fun h => h1 h.symm, h3⟩
    · rw [h] at hplan
      cases hplan
  · intro y m ms hload hglob files
    have hg : searchForWebApp { host with Files := files } context.Application.Root
        (pickWebDir y) = (true, none) :=
      searchForWebApp_match { host with Files := files } _ _ m ms hglob
    simp only [runDetect, hload, hg]

/-- Witness for C4: the application with `htdocs/index.php` and `worker.php`
yields the web plan, also when its tree is replaced by another one. -/
theorem runDetect_exactly_one_witness :
    stdConstants.PlanNamesDistinct ∧
    (webHost.Files appContext.Application.Root).ContainsScript ∧
    (∀ plan, (runDetect stdConstants webHost appContext).1 = Outcome.Pass plan →
      plan.length = 2 ∧ plan.keys.Nodup ∧
      (stdConstants.Dependency, (⟨[("launch", true)]⟩ : Dependency)) ∈ plan ∧
      ((stdConstants.WebDependency ∈ plan.keys ∧ stdConstants.ScriptDependency ∉ plan.keys) ∨
        (stdConstants.ScriptDependency ∈ plan.keys ∧
          stdConstants.WebDependency ∉ plan.keys))) ∧
    runDetect stdConstants { webHost with Files := fun _ => .missing "app" (.other "EIO") }
        appContext =
      (Outcome.Pass [("php-binary", ⟨[("launch", true)]⟩), ("php-web", ⟨[]⟩)], []) :=
  ⟨by decide, (hasScript_iff _).1 (by decide),
    (runDetect_exactly_one stdConstants webHost appContext (by decide)).2.1,
    (runDetect_exactly_one stdConstants webHost appContext (by decide)).2.2
      ⟨⟨"", "", ""⟩⟩ "/app/htdocs/index.php" [] rfl rfl _⟩

/-- C5: if loading the configuration fails with an error, `runDetect` returns the
fail result with that error and no plan; if the configuration loads and the
web-directory glob returns an error, `runDetect` returns the fail result with
that error and no plan, whatever the filesystem tree holds and with nothing
logged, so the recursive walk is not performed. -/
theorem runDetect_hard_failure (c : Constants) (host : Host) (context : Detect) :
    (∀ err, host.LoadBuildpackYAML context.Application.Root = .error err →
      runDetect c host context = (Outcome.Fail (some err), []) ∧
      (runDetect c host context).1.plan = none) ∧
    (∀ buildpackYAML err,
      host.LoadBuildpackYAML context.Application.Root = .ok buildpackYAML →
      host.Glob (host.Join [context.Application.Root, pickWebDir buildpackYAML, "*.php"]) =
        .error err →
      ∀ files : String → Node,
        runDetect c { host with Files := files } context = (Outcome.Fail (some err), []) ∧
        (runDetect c { host with Files := files } context).1.plan = none) := by
  constructor
  · intro err hload
    have h : runDetect c host context = (Outcome.Fail (some err), []) := by
      simp only [runDetect, hload]
    exact ⟨h, by rw [h]; rfl⟩
  · intro y err hload hglob files
    have hg : searchForWebApp { host with Files := files } context.Application.Root
        (pickWebDir y) = (false, some err) :=
      searchForWebApp_error { host with Files := files } _ _ err hglob
    have h : runDetect c { host with Files := files } context =
        (Outcome.Fail (some err), []) := by
      simp only [runDetect, hload, hg]
    exact ⟨h, by rw [h]; rfl⟩

/-- Witness for C5: a `buildpack.yml` that does not load, and a malformed glob
pattern over a tree that holds a script. -/
theorem runDetect_hard_failure_witness :
    noYamlHost.LoadBuildpackYAML appContext.Application.Root =
      .error (.other "yaml: unmarshal errors") ∧
    runDetect stdConstants noYamlHost appContext =
      (Outcome.Fail (some (.other "yaml: unmarshal errors")), []) ∧
    runDetect stdConstants
        { badPatternHost with Files := fun _ => .dir "app" [.entry "main.php" .regular] }
        appContext = (Outcome.Fail (some Error.ErrBadPattern), []) :=
  ⟨rfl, ((runDetect_hard_failure stdConstants noYamlHost appContext).1 _ rfl).1,
    ((runDetect_hard_failure stdConstants badPatternHost appContext).2 ⟨⟨"[", "", ""⟩⟩
      Error.ErrBadPattern rfl rfl _).1⟩

/-- C6, as stated, fails: when `Lstat` of the application root fails, the closure
answers the error with `SkipDir`, `filepath.Walk` returns nil, and
`searchForScript` returns `(false, nil)`; `runDetect` returns the fail result
with a nil error. No non-nil error is returned. -/
theorem searchForScript_root_error_nil :
    (noRootHost.Files appContext.Application.Root).lstat = .error (.other "ENOENT") ∧
    searchForScript noRootHost appContext.Application.Root =
      ((false, none), [accessFailure "/app" (.other "ENOENT")]) ∧
    (¬ ∃ err, (searchForScript noRootHost appContext.Application.Root).1.2 = some err) ∧
    runDetect stdConstants noRootHost appContext =
      (Outcome.Fail none, [accessFailure "/app" (.other "ENOENT")]) := by
  have h : (searchForScript noRootHost appContext.Application.Root).1.2 = none := by decide
  refine ⟨rfl, by decide, ?_, by decide⟩
  rintro ⟨err, he⟩
  rw [h] at he
  cases he

/-- C6, amended: when the recursive walk cannot access the application root itself
(its `Lstat` fails, or it is a directory that cannot be read), the closure logs
the failure and answers `SkipDir`, which `filepath.Walk` turns into a nil error:
`searchForScript` returns `(false, nil)`, and `runDetect`, once the configuration
has loaded and the glob has found nothing, returns the fail result with a nil
error. `searchForScript` never returns a non-nil error. -/
theorem searchForScript_root_inaccessible (host : Host) (appRoot n : String) (err : Error)
    (hroot : host.Files appRoot = .missing n err ∨ host.Files appRoot = .lockedDir n err) :
    searchForScript host appRoot = ((false, none), [accessFailure appRoot err]) ∧
    (∀ (c : Constants) (context : Detect) (buildpackYAML : BuildpackYAML),
      context.Application.Root = appRoot →
      host.LoadBuildpackYAML context.Application.Root = .ok buildpackYAML →
      host.Glob (host.Join [context.Application.Root, pickWebDir buildpackYAML, "*.php"]) =
        .ok [] →
      runDetect c host context = (Outcome.Fail none, [accessFailure appRoot err])) ∧
    (∀ (other : Host) (root : String), (searchForScript other root).1.2 = none) := by
  have hs := searchForScript_root_failed host appRoot n err hroot
  refine ⟨hs, ?_, ?_⟩
  · intro c context y hctx hload hglob
    subst hctx
    have hf : (host.Files context.Application.Root).hasScript = false := by
      rcases hroot with h | h <;> simp [h, Node.hasScript]
    rw [runDetect_no_web c host context y hload hglob, hs, hf]
    rfl
  · intro other root
    rw [searchForScript_eq other root]

/-- Witness for C6: an application root whose `Lstat` fails with `ENOENT`. -/
theorem searchForScript_root_inaccessible_witness :
    (noRootHost.Files "/app" = .missing "app" (.other "ENOENT") ∨
      noRootHost.Files "/app" = .lockedDir "app" (.other "ENOENT")) ∧
    searchForScript noRootHost "/app" =
      ((false, none), [accessFailure "/app" (.other "ENOENT")]) :=
  ⟨Or.inl rfl,
    (searchForScript_root_inaccessible noRootHost "/app" "app" (.other "ENOENT")
      (Or.inl rfl)).1⟩

/-- C7: a walk error on a path is not fatal in `searchForScript`. The closure
answers every error with `SkipDir` after logging it; in the loop over the names
of a directory, a child whose `Lstat` fails or that cannot be read costs one log
line and the loop goes on with the remaining names; and for every tree, whatever
paths in it fail, if it has a non-directory entry named `*.php` below readable
directories then `searchForScript` returns `(true, nil)`. -/
theorem searchForScript_survives_errors (host : Host) (appRoot : String)
    (hphp : (host.Files appRoot).ContainsScript) :
    (searchForScript host appRoot).1 = (true, none) ∧
    (∀ (path : String) (info : Option FileInfo) (err : Error) (s : ScanState),
      scriptWalkFn path (.failed info err) s =
        (some Error.SkipDir, { s with log := s.log ++ [accessFailure path err] })) ∧
    (∀ (path : String) (c : Node) (rest : List Node) (s : ScanState) (err : Error),
      (c.lstat = .error err ∨ ∃ n, c = .lockedDir n err) →
      filepath.walkNames host.Join scriptWalkFn path (c :: rest) s =
        filepath.walkNames host.Join scriptWalkFn path rest
          { s with log := s.log ++ [accessFailure (host.Join [path, c.name]) err] }) := by
  refine ⟨?_, fun _ _ _ _ => rfl, fun path c rest s err hc =>
    walkNames_skips_failed host.Join path c rest s err hc⟩
  rw [searchForScript_eq, (hasScript_iff _).2 hphp]

/-- Witness for C7: two entries of the application root fail before the walk
reaches `src/main.php`; both failures are logged and the script is found. -/
theorem searchForScript_survives_errors_witness :
    (scriptHost.Files "/app").ContainsScript ∧
    searchForScript scriptHost "/app" =
      ((true, none), [accessFailure "/app/gone" (.other "ENOENT"),
        accessFailure "/app/priv" (.other "EACCES")]) ∧
    (searchForScript scriptHost "/app").1 = (true, none) :=
  ⟨(hasScript_iff _).1 (by decide), by decide,
    (searchForScript_survives_errors scriptHost "/app" ((hasScript_iff _).1 (by decide))).1⟩

/-- C10, as stated, fails: in the application whose only `*.php` entry is a
symbolic link, the walk reaches no regular file named `*.php`, yet
`searchForScript` returns true. -/
theorem searchForScript_counts_symlink :
    (searchForScript symlinkHost "/app").1 = (true, none) ∧
    ¬ ∃ n, (symlinkHost.Files "/app").Contains n EntryKind.regular ∧
      strings.HasSuffix n ".php" = true := by
  refine ⟨by decide, ?_⟩
  rintro ⟨n, h, _⟩
  cases h with
  | inDir _ _ c _ _ hc hk =>
    simp only [List.mem_singleton] at hc
    subst hc
    cases hk

/-- C10, amended: `searchForScript` returns `(true, nil)` if and only if the tree
below `appRoot` has a non-directory entry (regular file, symbolic link or other
non-directory) whose name ends in `.php`, and `(false, nil)` otherwise; the
result is the same for any two trees with the same non-directory entries, in
particular when the children of the root directory are listed in another order;
and once `found` is set every later call of the closure returns `SkipDir` and
leaves `found` set. -/
theorem searchForScript_iff (host : Host) (appRoot : String) :
    ((searchForScript host appRoot).1 = (true, none) ↔
      (host.Files appRoot).ContainsScript) ∧
    ((searchForScript host appRoot).1 = (false, none) ↔
      ¬ (host.Files appRoot).ContainsScript) ∧
    (∀ (other : Host) (otherRoot : String),
      (∀ n k, (host.Files appRoot).Contains n k ↔ (other.Files otherRoot).Contains n k) →
      (searchForScript other otherRoot).1 = (searchForScript host appRoot).1) ∧
    (∀ (other : Host) (d : String) (cs cs' : List Node),
      host.Files appRoot = .dir d cs → other.Files appRoot = .dir d cs' → cs.Perm cs' →
      (searchForScript other appRoot).1 = (searchForScript host appRoot).1) ∧
    (∀ (path : String) (v : Visit) (s : ScanState), s.found = true →
      (scriptWalkFn path v s).1 = some Error.SkipDir ∧
      (scriptWalkFn path v s).2.found = true) := by
  have hcongr : ∀ (other : Host) (otherRoot : String),
      (∀ n k, (host.Files appRoot).Contains n k ↔ (other.Files otherRoot).Contains n k) →
      (searchForScript other otherRoot).1 = (searchForScript host appRoot).1 := by
    intro other otherRoot h
    rw [searchForScript_eq, searchForScript_eq, hasScript_congr h]
  refine ⟨?_, ?_, hcongr, ?_, scriptWalkFn_found⟩
  · rw [searchForScript_eq, ← hasScript_iff]
    simp
  · rw [searchForScript_eq, ← hasScript_iff]
    simp
  · intro other d cs cs' h1 h2 hperm
    apply hcongr
    intro n k
    rw [h1, h2, contains_dir_iff, contains_dir_iff]
    constructor
    · rintro ⟨c, hc, hk⟩
      exact ⟨c, hperm.mem_iff.1 hc, hk⟩
    · rintro ⟨c, hc, hk⟩
      exact ⟨c, hperm.mem_iff.2 hc, hk⟩

/-- Witness for C10: listing the application root in another order does not
change the answer. -/
theorem searchForScript_iff_witness :
    (scriptHost.Files "/app").ContainsScript ∧
    (searchForScript scriptHost "/app").1 = (true, none) ∧
    (searchForScript
      (mkHost ⟨"", "", ""⟩ (fun _ => .ok [])
        (.dir "app" [.entry "z" .regular, .dir "src" [.entry "a.txt" .regular,
          .entry "main.php" .regular], .lockedDir "priv" (.other "EACCES"),
          .missing "gone" (.other "ENOENT")])) "/app").1 =
      (searchForScript scriptHost "/app").1 :=
  ⟨(hasScript_iff _).1 (by decide),
    (searchForScript_iff scriptHost "/app").1.2 ((hasScript_iff _).1 (by decide)),
    (searchForScript_iff scriptHost "/app").2.2.2.1 _ "app" _ _ rfl rfl
      (List.reverse_perm ([.missing "gone" (.other "ENOENT"),
        .lockedDir "priv" (.other "EACCES"),
        .dir "src" [.entry "a.txt" .regular, .entry "main.php" .regular],
        .entry "z" .regular] : List Node)).symm⟩

/-- C9: for every web application (the glob `<appRoot>/<webdir>/*.php` has a
match) contributed with the built-in PHP server selected, `Contribute` succeeds
and declares exactly two processes, `task` and `web`, both with the command
`php -S 0.0.0.0:$PORT -t <appRoot>/<webdir>`, where `<webdir>` is the configured
web directory, or `htdocs` when none is configured. -/
theorem Contribute_builtin_server (c : Constants) (host : Host)
    (buildpackYAML : BuildpackYAML) (appRoot layerRoot randomHash m : String)
    (ms : List String)
    (hglob : host.Glob (host.Join [appRoot, pickWebDir buildpackYAML, "*.php"]) =
      .ok (m :: ms))
    (hname : c.PhpWebServer ≠ "")
    (hserver : buildpackYAML.Config.WebServer = c.PhpWebServer) :
    ∃ r, Contribute c host buildpackYAML appRoot layerRoot randomHash = .ok r ∧
      r.Processes =
        [⟨"task", "php -S 0.0.0.0:$PORT -t " ++ appRoot ++ "/" ++ pickWebDir buildpackYAML⟩,
          ⟨"web", "php -S 0.0.0.0:$PORT -t " ++ appRoot ++ "/" ++ pickWebDir buildpackYAML⟩] ∧
      (buildpackYAML.Config.WebDirectory = "" → pickWebDir buildpackYAML = "htdocs") ∧
      (buildpackYAML.Config.WebDirectory ≠ "" →
        pickWebDir buildpackYAML = buildpackYAML.Config.WebDirectory) := by
  have hws : pickWebServer c buildpackYAML = c.PhpWebServer := by
    simp [pickWebServer, hserver, hname]
  have hC : Contribute c host buildpackYAML appRoot layerRoot randomHash =
      .ok ⟨[⟨"task", "php -S 0.0.0.0:$PORT -t " ++ appRoot ++ "/" ++ pickWebDir buildpackYAML⟩,
          ⟨"web", "php -S 0.0.0.0:$PORT -t " ++ appRoot ++ "/" ++ pickWebDir buildpackYAML⟩],
        [layerRoot ++ "/etc/php.ini"],
        [("PHPRC", layerRoot ++ "/etc"), ("PHP_INI_SCAN_DIR", appRoot ++ "/.php.ini.d")],
        [], [], randomHash⟩ := by
    simp only [Contribute, searchForWebApp_match host _ _ m ms hglob, hws, if_true]
  refine ⟨_, hC, rfl, ?_, ?_⟩
  · intro h
    simp [pickWebDir, h]
  · intro h
    simp [pickWebDir, h]

/-- Witness for C9: `htdocs/index.php` with no web directory configured, and
`public/index.php` with `php.webdirectory: public`, as in the contributor tests. -/
theorem Contribute_builtin_server_witness :
    (∃ r, Contribute stdConstants webHost ⟨⟨"", "php-server", ""⟩⟩ "/app" "/layers/php-web"
        "0f3a" = .ok r ∧
      r.Processes = [⟨"task", "php -S 0.0.0.0:$PORT -t /app/htdocs"⟩,
        ⟨"web", "php -S 0.0.0.0:$PORT -t /app/htdocs"⟩]) ∧
    (∃ r, Contribute stdConstants
        (mkHost ⟨"public", "php-server", ""⟩ (fun _ => .ok ["/app/public/index.php"])
          (.dir "app" [.dir "public" [.entry "index.php" .regular]]))
        ⟨⟨"public", "php-server", ""⟩⟩ "/app" "/layers/php-web" "0f3a" = .ok r ∧
      r.Processes = [⟨"task", "php -S 0.0.0.0:$PORT -t /app/public"⟩,
        ⟨"web", "php -S 0.0.0.0:$PORT -t /app/public"⟩]) := by
  constructor
  · obtain ⟨r, h1, h2, _⟩ := Contribute_builtin_server stdConstants webHost
      ⟨⟨"", "php-server", ""⟩⟩ "/app" "/layers/php-web" "0f3a" "/app/htdocs/index.php" []
      rfl (by decide) rfl
    exact ⟨r, h1, by rw [h2]; decide⟩
  · obtain ⟨r, h1, h2, _⟩ := Contribute_builtin_server stdConstants
      (mkHost ⟨"public", "php-server", ""⟩ (fun _ => .ok ["/app/public/index.php"])
        (.dir "app" [.dir "public" [.entry "index.php" .regular]]))
      ⟨⟨"public", "php-server", ""⟩⟩ "/app" "/layers/php-web" "0f3a" "/app/public/index.php" []
      rfl (by decide) rfl
    exact ⟨r, h1, by rw [h2]; decide⟩

end PhpWeb
